import Mathlib

set_option autoImplicit false

/-!
Shallow embedding of `audit.py`: a dependency auditor that joins a `Gopkg.toml`
constraints document with a `Gopkg.lock` lock document, resolves aliases,
normalizes dependency names and emits a CSV report.

Python strings are modelled as lists of characters, Python dicts as
association lists with an explicit overwrite-on-insert operation, and the
local filesystem as an association list from path to (already parsed) TOML
document; `toml.loads` itself is an external library and is not remodelled.
-/

namespace DepAudit

/-- Dependency names, revisions, file paths and printed lines: Python `str`. -/
abbrev Str := List Char

/-- Python dict lookup `d[k]` on an association-list model (first entry with
the key; `dictInsert` keeps keys unique, so first = last). -/
def dictGet? (m : List (Str × Str)) (k : Str) : Option Str :=
  match m with
  | [] => none
  | p :: rest => if p.1 = k then some p.2 else dictGet? rest k

/-- Python dict assignment `d[k] = v`: overwrite the entry for `k` when one
is present, otherwise add a new entry. -/
def dictInsert (m : List (Str × Str)) (k v : Str) : List (Str × Str) :=
  if m.any (fun p => decide (p.1 = k)) then
    m.map (fun p => if p.1 = k then (k, v) else p)
  else m ++ [(k, v)]

/-- The module-level `ALIASES` table of `audit.py` (lines 12-14). -/
def ALIASES : List (Str × Str) :=
  [("gopkg.in/ini.v1".toList, "github.com/go-ini/ini".toList)]

/-- The module-level `NORMALIZATIONS` table of `audit.py` (lines 16-19),
in declaration order. -/
def NORMALIZATIONS : List (Str × Str) :=
  [("k8s.io".toList, "github.com/kubernetes".toList),
   ("gopkg.in/yaml.v2".toList, "github.com/go-yaml/yaml".toList)]

/-- One entry of the `constraint` collection of `Gopkg.toml`. -/
structure Constraint where
  name : Str
  deriving DecidableEq

/-- One entry of the `projects` collection of `Gopkg.lock`. -/
structure LockedProject where
  name : Str
  revision : Str
  deriving DecidableEq

/-- A parsed TOML document; only the two collections the tool reads are
modelled. -/
structure TomlDoc where
  constraint : List Constraint
  projects : List LockedProject
  deriving DecidableEq

/-- Lines 72-73 of `audit.py`: `if dep in ALIASES: dep = ALIASES[dep]`. -/
def aliasResolve (aliases : List (Str × Str)) (dep : Str) : Str :=
  match dictGet? aliases dep with
  | some v => v
  | none => dep

/-- Line 68: the dict comprehension
`(project name : project revision) for project in lock projects`. -/
def buildLocked (projects : List LockedProject) : List (Str × Str) :=
  projects.foldl (fun m p => dictInsert m p.name p.revision) []

/-- Line 77: the warning line printed for an unresolved dependency. -/
def warnMsg (dep : Str) : Str :=
  "Warning: Could not find revision for ".toList ++ dep

/-- The body of the loop of `Auditor.__third_party_constraints`
(lines 70-77), acting on the pair (result dict, warning lines printed); the
local variable `dep` of the Python loop is written out as
`aliasResolve aliases (c name)`. -/
def auditStep (aliases locked : List (Str × Str))
    (acc : List (Str × Str) × List Str) (c : Constraint) :
    List (Str × Str) × List Str :=
  match dictGet? locked (aliasResolve aliases c.name) with
  | some rev => (dictInsert acc.1 (aliasResolve aliases c.name) rev, acc.2)
  | none => (acc.1, acc.2 ++ [warnMsg (aliasResolve aliases c.name)])

/-- The function `Auditor.__third_party_constraints` (lines 66-78), returning the
result mapping together with the warning lines printed; the alias table the
code reads from module scope is passed explicitly. -/
def thirdPartyConstraints (aliases : List (Str × Str)) (pkg lock : TomlDoc) :
    List (Str × Str) × List Str :=
  pkg.constraint.foldl (auditStep aliases (buildLocked lock.projects)) ([], [])

/-- Python `key.startswith` test used at line 99, as `startswith key dep`
meaning: `dep` starts with `key`. -/
def startswith : Str → Str → Bool
  | [], _ => true
  | _ :: _, [] => false
  | k :: ks, d :: ds => decide (k = d) && startswith ks ds

/-- Worker for Python `str.replace`: at `skip = n+1` the character belongs to
an occurrence already rewritten and is dropped; at `skip = 0` a fresh match of
`old` emits `new` and schedules the rest of the occurrence to be dropped. -/
def pyRepGo (old new : Str) : Nat → Str → Str
  | _, [] => []
  | n + 1, _ :: rest => pyRepGo old new n rest
  | 0, c :: rest =>
    if startswith old (c :: rest) then new ++ pyRepGo old new (old.length - 1) rest
    else c :: pyRepGo old new 0 rest

/-- Python `s.replace(old, new)` (line 100): every leftmost non-overlapping
occurrence of `old` in `s` is replaced by `new`; the empty pattern inserts
`new` around every character, as CPython does. -/
def pyReplace (s old new : Str) : Str :=
  match old with
  | [] => new ++ s.foldr (fun c acc => c :: (new ++ acc)) []
  | _ :: _ => pyRepGo old new 0 s

/-- The method `Normalizer.normalize_dep` (lines 95-101), parameterised by the
normalization table in its iteration order. -/
def normalizeDep (norms : List (Str × Str)) (dep : Str) : Str :=
  match norms with
  | [] => dep
  | (key, value) :: rest =>
    if startswith key dep then pyReplace dep key value
    else normalizeDep rest dep

/-- Python `s.split(sep)` for a one-character separator. -/
def splitChar (sep : Char) : Str → List Str
  | [] => [[]]
  | c :: rest =>
    if c = sep then [] :: splitChar sep rest
    else
      match splitChar sep rest with
      | [] => [[c]]
      | s :: ss => (c :: s) :: ss

/-- The method `Normalizer.short_name` (line 105): the last component of
`dep.split` on the slash character. -/
def shortName (dep : Str) : Str := (splitChar '/' dep).getLastD []

/-- The method `Normalizer.short_sha` (line 108): the slice `sha[:6]`. -/
def shortSha (sha : Str) : Str := sha.take 6

/-- One data line of the CSV (lines 117-120), without the trailing newline. -/
def csvRow (norms : List (Str × Str)) (dep sha : Str) : Str :=
  let depName := normalizeDep norms dep
  depName ++ ",".toList ++ shortName depName ++ ",".toList ++ shortSha sha

/-- The data rows written by `generate_csv_file` (lines 111-120), in the
iteration order of the result mapping. -/
def generateCsvRows (aliases norms : List (Str × Str)) (pkg lock : TomlDoc) :
    List Str :=
  ((thirdPartyConstraints aliases pkg lock).1).map
    (fun p => csvRow norms p.1 p.2)

/-- A snapshot of the local filesystem: path to parsed TOML content. A file
that is present is represented by its parsed document, since `toml.loads` is
an external library capability. -/
abbrev FS := List (Str × TomlDoc)

/-- Reading a path from the filesystem snapshot. -/
def fsLookup (fs : FS) (path : Str) : Option TomlDoc :=
  match fs with
  | [] => none
  | p :: rest => if p.1 = path then some p.2 else fsLookup rest path

/-- Error classes that abort the run (spec section 7): `ioError` is the
`IOError` raised by `open` on a missing local file, which the spec groups
under the `FetchError` class. -/
inductive PyErr where
  | ioError
  deriving DecidableEq

/-- The `LocalRepoFetcher` object (lines 38-56): holds the base location. -/
structure LocalRepoFetcher where
  location : Str
  deriving DecidableEq

/-- Lines 49-56: the private fetch opens the plain concatenation
`self.location + filename` (no separator inserted), raising `IOError` when
the file is missing, and `fetch_toml` parses the fetched content. -/
def LocalRepoFetcher.fetchToml (fs : FS) (f : LocalRepoFetcher) (filename : Str) :
    Except PyErr TomlDoc :=
  match fsLookup fs (f.location ++ filename) with
  | some doc => Except.ok doc
  | none => Except.error PyErr.ioError

/-- The method `Auditor.audit` (lines 80-84) in local mode: fetch `Gopkg.toml`,
then `Gopkg.lock`, then join them with the module-level `ALIASES` table. -/
def auditLocal (fs : FS) (f : LocalRepoFetcher) :
    Except PyErr (List (Str × Str) × List Str) :=
  match f.fetchToml fs "Gopkg.toml".toList with
  | Except.error e => Except.error e
  | Except.ok pkg =>
    match f.fetchToml fs "Gopkg.lock".toList with
    | Except.error e => Except.error e
    | Except.ok lock => Except.ok (thirdPartyConstraints ALIASES pkg lock)

/-- The function `generate_csv_file` (lines 111-120) in local mode, as set up by
`audit_local_repo` (lines 130-134): `auditor.audit()` runs first, and only
after it returns is the file `<project>-audit.csv` opened and written, so a
fetch failure propagates before any file is created. On success the value is
the pair (file name, file content). -/
def generateCsvFileLocal (fs : FS) (projectName : Str) (f : LocalRepoFetcher) :
    Except PyErr (Str × Str) :=
  match auditLocal fs f with
  | Except.error e => Except.error e
  | Except.ok deps =>
    Except.ok (projectName ++ "-audit.csv".toList,
      "Dependency,Short Name,SHA\n".toList ++
        (deps.1.map (fun p => csvRow NORMALIZATIONS p.1 p.2)).foldr
          (fun r acc => r ++ "\n".toList ++ acc) [])

/-- The string literal tested at line 141. -/
def str_local : Str := "local".toList

/-- The string literal tested at line 147. -/
def str_remote : Str := "remote".toList

/-- The usage string printed at line 153. -/
def usageMsg : Str := "Use: python audit.py \x7bremote|local\x7d args...".toList

/-- The line printed at line 142. -/
def msgLocal : Str := "Performing local project audit...".toList

/-- The line printed at line 148. -/
def msgRemote : Str := "Performing remote audit...".toList

/-- How `main` (lines 137-154) continues after its prints: the usage branch
calls `sys.exit(1)`; indexing a too-short argument list raises an uncaught
`IndexError`; otherwise an audit starts with the given arguments. -/
inductive MainStep where
  | exitUsage
  | raiseIndexError
  | auditLocalRepo (repoPath project : Str)
  | auditRemoteRepo (org project : Str)
  deriving DecidableEq

/-- The function `main` (lines 137-154) up to the point where an audit would
begin: the lines printed to standard output, and the step taken next.
`args` is `sys.argv` without the script name (line 158). -/
def mainDispatch (args : List Str) : List Str × MainStep :=
  match args with
  | [] => ([], MainStep.raiseIndexError)
  | kind :: rest =>
    if kind = str_local then
      match rest with
      | repoPath :: project :: _ =>
        ([msgLocal], MainStep.auditLocalRepo repoPath project)
      | _ => ([msgLocal], MainStep.raiseIndexError)
    else if kind = str_remote then
      match rest with
      | org :: project :: _ =>
        ([msgRemote], MainStep.auditRemoteRepo org project)
      | _ => ([msgRemote], MainStep.raiseIndexError)
    else ([usageMsg], MainStep.exitUsage)

/-- Process exit status implied by a `MainStep`: `sys.exit(1)` in the usage
branch, CPython's status 1 for an uncaught exception, and `none` (not yet
decided) when an audit proceeds. -/
def MainStep.exitCode : MainStep → Option Nat
  | MainStep.exitUsage => some 1
  | MainStep.raiseIndexError => some 1
  | _ => none

/-- Reference definition taken from the spec's words (section 4.2 step 2:
later entries overwrite earlier ones, last-write-wins), to be compared with
the dict built by `buildLocked`: the revision of the last entry in document
order bearing the name. -/
def specLastWriteWins (projects : List LockedProject) (n : Str) : Option Str :=
  (projects.reverse.find? (fun p => decide (p.name = n))).map LockedProject.revision

/-- Lookup after appending association lists: the earlier list wins. -/
theorem dictGet?_append (m m' : List (Str × Str)) (n : Str) :
    dictGet? (m ++ m') n = (dictGet? m n).or (dictGet? m' n) := by
  induction m with
  | nil => simp [dictGet?]
  | cons p rest ih =>
    by_cases h : p.1 = n
    · simp [dictGet?, h]
    · simp [dictGet?, h, ih]

/-- Overwriting the entries for key `k` does not change lookups at other
keys. -/
theorem dictGet?_map_ne (m : List (Str × Str)) (k v n : Str) (h : n ≠ k) :
    dictGet? (m.map (fun p => if p.1 = k then (k, v) else p)) n = dictGet? m n := by
  induction m with
  | nil => rfl
  | cons p rest ih =>
    by_cases hp : p.1 = k
    · have hpn : p.1 ≠ n := fun e => h (e.symm.trans hp)
      simp [dictGet?, hp, hpn, Ne.symm h, ih]
    · simp [dictGet?, hp, ih]

/-- When key `k` is present, overwriting its entries with `(k, v)` makes the
lookup at `k` return `v`. -/
theorem dictGet?_map_self (m : List (Str × Str)) (k v : Str)
    (hmem : m.any (fun p => decide (p.1 = k)) = true) :
    dictGet? (m.map (fun p => if p.1 = k then (k, v) else p)) k = some v := by
  induction m with
  | nil => simp at hmem
  | cons p rest ih =>
    simp only [List.any_cons, Bool.or_eq_true, decide_eq_true_eq] at hmem
    by_cases hp : p.1 = k
    · simp [dictGet?, hp]
    · simp [dictGet?, hp, ih (hmem.resolve_left hp)]

/-- A key reported absent by `any` is absent for `dictGet?`. -/
theorem dictGet?_eq_none (m : List (Str × Str)) (k : Str)
    (h : ¬ m.any (fun p => decide (p.1 = k)) = true) :
    dictGet? m k = none := by
  induction m with
  | nil => rfl
  | cons p rest ih =>
    simp only [List.any_cons, Bool.or_eq_true, decide_eq_true_eq] at h
    push_neg at h
    simp [dictGet?, h.1, ih (by simpa using h.2)]

/-- The characteristic equation of Python dict assignment: after
`dictInsert m k v`, looking up `k` gives `v` and any other key is
unchanged. -/
theorem dictGet?_insert (m : List (Str × Str)) (k v n : Str) :
    dictGet? (dictInsert m k v) n = if n = k then some v else dictGet? m n := by
  unfold dictInsert
  by_cases hmem : m.any (fun p => decide (p.1 = k)) = true
  · rw [if_pos hmem]
    by_cases hn : n = k
    · subst hn
      rw [if_pos rfl]
      exact dictGet?_map_self m n v hmem
    · rw [if_neg hn, dictGet?_map_ne m k v n hn]
  · rw [if_neg hmem, dictGet?_append]
    by_cases hn : n = k
    · subst hn
      rw [if_pos rfl, dictGet?_eq_none m n hmem]
      simp [dictGet?]
    · rw [if_neg hn]
      cases hm : dictGet? m n with
      | some r => simp [Option.or]
      | none => simp [Option.or, dictGet?, Ne.symm hn]

/-- Lookup in the dict built by folding `dictInsert` over the lock entries,
for an arbitrary starting dict: the last entry bearing the name wins, and
the starting dict answers only names no entry bears. -/
theorem foldl_insert_get (ps : List LockedProject) (acc : List (Str × Str)) (n : Str) :
    dictGet? (ps.foldl (fun m p => dictInsert m p.name p.revision) acc) n =
      ((ps.reverse.find? (fun p => decide (p.name = n))).map
        LockedProject.revision).or (dictGet? acc n) := by
  induction ps generalizing acc with
  | nil => simp
  | cons p ps ih =>
    simp only [List.foldl_cons, List.reverse_cons, List.find?_append]
    rw [ih, dictGet?_insert]
    cases hf : ps.reverse.find? (fun p => decide (p.name = n)) with
    | some q => simp [Option.or]
    | none =>
      by_cases hp : p.name = n
      · rw [if_pos hp.symm]
        simp [List.find?, hp, Option.or]
      · rw [if_neg (fun e => hp e.symm)]
        simp [List.find?, hp, Option.or]

/-- The module-level `ALIASES` table is idempotent under resolution: its one
value is not itself a key, so resolving twice equals resolving once. -/
theorem aliasResolve_ALIASES_idem (s : Str) :
    aliasResolve ALIASES (aliasResolve ALIASES s) = aliasResolve ALIASES s := by
  by_cases h : s = "gopkg.in/ini.v1".toList
  · rw [h]
    decide
  · have hk : ¬ (("gopkg.in/ini.v1".toList : Str) = s) := fun e => h e.symm
    have houter : aliasResolve ALIASES s = s := by
      simp only [aliasResolve, ALIASES, dictGet?]
      rw [if_neg hk]
    rw [houter, houter]

/-- Invariant of the constraint loop: every name holding a value in the
result dict is a fixed point of alias resolution and holds exactly the
revision the lock dict records for it. -/
theorem audit_fold_lookup (aliases locked : List (Str × Str)) (cs : List Constraint)
    (acc : List (Str × Str) × List Str) (k r : Str)
    (hidem : ∀ s, aliasResolve aliases (aliasResolve aliases s) = aliasResolve aliases s)
    (hacc : ∀ k' r', dictGet? acc.1 k' = some r' →
      aliasResolve aliases k' = k' ∧ dictGet? locked k' = some r')
    (h : dictGet? ((cs.foldl (auditStep aliases locked) acc).1) k = some r) :
    aliasResolve aliases k = k ∧ dictGet? locked k = some r := by
  induction cs generalizing acc with
  | nil => exact hacc k r h
  | cons c cs ih =>
    refine ih (auditStep aliases locked acc c) ?_ h
    intro k' r' h'
    cases hg : dictGet? locked (aliasResolve aliases c.name) with
    | some rev =>
      simp only [auditStep, hg] at h'
      rw [dictGet?_insert] at h'
      by_cases hk : k' = aliasResolve aliases c.name
      · rw [if_pos hk] at h'
        have hr : rev = r' := Option.some.inj h'
        refine ⟨?_, ?_⟩
        · rw [hk]
          exact hidem c.name
        · rw [hk, hg, hr]
      · rw [if_neg hk] at h'
        exact hacc k' r' h'
    | none =>
      simp only [auditStep, hg] at h'
      exact hacc k' r' h'

/-- The constraint loop never writes a key the lock dict does not hold. -/
theorem audit_fold_miss (aliases locked : List (Str × Str)) (cs : List Constraint)
    (acc : List (Str × Str) × List Str) (dep : Str)
    (hmiss : dictGet? locked dep = none)
    (hacc : dictGet? acc.1 dep = none) :
    dictGet? ((cs.foldl (auditStep aliases locked) acc).1) dep = none := by
  induction cs generalizing acc with
  | nil => exact hacc
  | cons c cs ih =>
    refine ih (auditStep aliases locked acc c) ?_
    cases hg : dictGet? locked (aliasResolve aliases c.name) with
    | some rev =>
      simp only [auditStep, hg]
      rw [dictGet?_insert, if_neg ?_]
      · exact hacc
      · intro e
        rw [e] at hmiss
        exact Option.noConfusion (hg.symm.trans hmiss)
    | none =>
      simp only [auditStep, hg]
      exact hacc

/-- Warning lines already printed are never retracted by later loop
iterations. -/
theorem audit_fold_warn_mono (aliases locked : List (Str × Str)) (cs : List Constraint)
    (acc : List (Str × Str) × List Str) (w : Str) (hw : w ∈ acc.2) :
    w ∈ (cs.foldl (auditStep aliases locked) acc).2 := by
  induction cs generalizing acc with
  | nil => exact hw
  | cons c cs ih =>
    refine ih (auditStep aliases locked acc c) ?_
    cases hg : dictGet? locked (aliasResolve aliases c.name) with
    | some rev =>
      simp only [auditStep, hg]
      exact hw
    | none =>
      simp only [auditStep, hg]
      exact List.mem_append_left _ hw

/-- Every constraint whose resolved name the lock dict does not hold gets
its warning line printed by the loop. -/
theorem audit_fold_warns (aliases locked : List (Str × Str)) (cs : List Constraint)
    (acc : List (Str × Str) × List Str) (c : Constraint) (hc : c ∈ cs)
    (hmiss : dictGet? locked (aliasResolve aliases c.name) = none) :
    warnMsg (aliasResolve aliases c.name) ∈ (cs.foldl (auditStep aliases locked) acc).2 := by
  induction cs generalizing acc with
  | nil => cases hc
  | cons c' cs ih =>
    simp only [List.foldl_cons]
    rcases List.mem_cons.mp hc with rfl | hmem
    · apply audit_fold_warn_mono
      simp only [auditStep, hmiss]
      exact List.mem_append_right _ (List.mem_singleton_self _)
    · exact ih (auditStep aliases locked acc c') hmem

/-- C1: for every constraints document and lock document, every dependency
name keyed in the mapping returned by the audit is, after alias resolution
via the `ALIASES` table, a key of the lock document's name-to-revision dict,
and its stored value equals the revision the lock dict records for that
post-alias name. -/
theorem audit_output_matches_lock (pkg lock : TomlDoc) (k r : Str)
    (h : dictGet? (thirdPartyConstraints ALIASES pkg lock).1 k = some r) :
    dictGet? (buildLocked lock.projects) (aliasResolve ALIASES k) = some r := by
  simp only [thirdPartyConstraints] at h
  have hmain := audit_fold_lookup ALIASES (buildLocked lock.projects) pkg.constraint
    ([], []) k r aliasResolve_ALIASES_idem
    (fun k' r' h' => by simp [dictGet?] at h') h
  rw [hmain.1]
  exact hmain.2

/-- Witness for C1 at a one-constraint, one-lock-entry input. -/
theorem audit_output_matches_lock_witness :
    dictGet? (buildLocked (TomlDoc.mk [] [LockedProject.mk "a".toList "r".toList]).projects)
      (aliasResolve ALIASES "a".toList) = some "r".toList :=
  audit_output_matches_lock (TomlDoc.mk [Constraint.mk "a".toList] [])
    (TomlDoc.mk [] [LockedProject.mk "a".toList "r".toList]) "a".toList "r".toList
    (by decide)

/-- C2 (counterexample): `normalize_dep` uses Python `str.replace`, which
rewrites every occurrence of the matched key, not only the one at the start
of the string, so an occurrence of the key elsewhere in the string is not
left untouched. -/
theorem normalize_dep_counterexample :
    normalizeDep [("k8s.io".toList, "github.com/kubernetes".toList)]
        "k8s.io/x/k8s.io".toList =
      "github.com/kubernetes/x/github.com/kubernetes".toList ∧
    normalizeDep [("k8s.io".toList, "github.com/kubernetes".toList)]
        "k8s.io/x/k8s.io".toList ≠
      "github.com/kubernetes/x/k8s.io".toList := by
  decide

/-- C2 (amended): for every dependency name and normalization table,
`normalize_dep` returns the name with every occurrence of the first table key
(in table iteration order) that is a prefix of the name replaced by its
canonical form, and returns the name unchanged when no table key is a prefix
of it. -/
theorem normalize_dep_first_match (norms : List (Str × Str)) (dep : Str) :
    normalizeDep norms dep =
      match norms.find? (fun kv => startswith kv.1 dep) with
      | some kv => pyReplace dep kv.1 kv.2
      | none => dep := by
  induction norms with
  | nil => rfl
  | cons kv rest ih =>
    obtain ⟨key, value⟩ := kv
    by_cases h : startswith key dep = true
    · simp [normalizeDep, List.find?, h]
    · simp [normalizeDep, List.find?, h, ih]

/-- C3 (counterexample): in end-to-end scenario 1 the CSV data row is not
`github.com/go-yaml/yaml,yaml,abcdef1`, because `short_sha` keeps six
characters, not seven. -/
theorem scenario_one_counterexample :
    generateCsvRows [("gopkg.in/yaml.v2".toList, "github.com/go-yaml/yaml".toList)]
        NORMALIZATIONS
        (TomlDoc.mk [Constraint.mk "gopkg.in/yaml.v2".toList] [])
        (TomlDoc.mk []
          [LockedProject.mk "github.com/go-yaml/yaml".toList "abcdef1234567".toList]) ≠
      ["github.com/go-yaml/yaml,yaml,abcdef1".toList] := by
  decide

/-- C3 (amended): with constraints `[(name gopkg.in/yaml.v2)]`, lock
`[(name github.com/go-yaml/yaml, revision abcdef1234567)]` and the alias
table of the scenario, the produced CSV contains exactly one data row, equal
to `github.com/go-yaml/yaml,yaml,abcdef`. -/
theorem scenario_one_row :
    generateCsvRows [("gopkg.in/yaml.v2".toList, "github.com/go-yaml/yaml".toList)]
        NORMALIZATIONS
        (TomlDoc.mk [Constraint.mk "gopkg.in/yaml.v2".toList] [])
        (TomlDoc.mk []
          [LockedProject.mk "github.com/go-yaml/yaml".toList "abcdef1234567".toList]) =
      ["github.com/go-yaml/yaml,yaml,abcdef".toList] := by
  decide

/-- C4: `short_sha` returns a prefix of its input of length exactly six, or
the whole input when it is shorter than six characters, and is
deterministic. -/
theorem short_sha_spec (s : Str) :
    (∃ t, shortSha s ++ t = s) ∧
    (s.length < 6 → shortSha s = s) ∧
    (6 ≤ s.length → (shortSha s).length = 6) ∧
    (∀ t, t = s → shortSha t = shortSha s) := by
  refine ⟨⟨s.drop 6, List.take_append_drop 6 s⟩,
    fun h => List.take_of_length_le (Nat.le_of_lt h), fun h => ?_, fun t ht => by rw [ht]⟩
  rw [shortSha, List.length_take]
  omega

/-- Witness for C4 at a thirteen-character and a three-character input. -/
theorem short_sha_spec_witness :
    (shortSha "abcdef1234567".toList).length = 6 ∧
    shortSha "abc".toList = "abc".toList ∧
    shortSha "abcdef1234567".toList = shortSha "abcdef1234567".toList :=
  ⟨(short_sha_spec "abcdef1234567".toList).2.2.1 (by decide),
   (short_sha_spec "abc".toList).2.1 (by decide),
   (short_sha_spec "abcdef1234567".toList).2.2.2 "abcdef1234567".toList rfl⟩

/-- C5: a constraint whose post-alias name is absent from the lock dict is
omitted from the result mapping and its warning line is printed; the loop
body is total, so the run does not fail on that branch. -/
theorem audit_missing_dep_skipped (pkg lock : TomlDoc) (c : Constraint)
    (hc : c ∈ pkg.constraint)
    (hmiss : dictGet? (buildLocked lock.projects) (aliasResolve ALIASES c.name) = none) :
    dictGet? (thirdPartyConstraints ALIASES pkg lock).1 (aliasResolve ALIASES c.name) = none ∧
    warnMsg (aliasResolve ALIASES c.name) ∈ (thirdPartyConstraints ALIASES pkg lock).2 := by
  constructor
  · simp only [thirdPartyConstraints]
    exact audit_fold_miss ALIASES (buildLocked lock.projects) pkg.constraint ([], [])
      (aliasResolve ALIASES c.name) hmiss rfl
  · simp only [thirdPartyConstraints]
    exact audit_fold_warns ALIASES (buildLocked lock.projects) pkg.constraint ([], [])
      c hc hmiss

/-- Witness for C5 at a one-constraint input with an empty lock document. -/
theorem audit_missing_dep_skipped_witness :
    dictGet? (thirdPartyConstraints ALIASES (TomlDoc.mk [Constraint.mk "x".toList] [])
        (TomlDoc.mk [] [])).1 (aliasResolve ALIASES "x".toList) = none ∧
    warnMsg (aliasResolve ALIASES "x".toList) ∈
      (thirdPartyConstraints ALIASES (TomlDoc.mk [Constraint.mk "x".toList] [])
        (TomlDoc.mk [] [])).2 :=
  audit_missing_dep_skipped (TomlDoc.mk [Constraint.mk "x".toList] [])
    (TomlDoc.mk [] []) (Constraint.mk "x".toList) (by decide) (by decide)

/-- C6: with constraints `[(name k8s.io/kubernetes)]`, lock
`[(name k8s.io/kubernetes, revision fff5156092b5)]` and the normalization
table of the scenario, the produced CSV contains exactly one data row, equal
to `github.com/kubernetes/kubernetes,kubernetes,fff515`. -/
theorem scenario_two_row :
    generateCsvRows ALIASES [("k8s.io".toList, "github.com/kubernetes".toList)]
        (TomlDoc.mk [Constraint.mk "k8s.io/kubernetes".toList] [])
        (TomlDoc.mk []
          [LockedProject.mk "k8s.io/kubernetes".toList "fff5156092b5".toList]) =
      ["github.com/kubernetes/kubernetes,kubernetes,fff515".toList] := by
  decide

/-- C7 (counterexample): invoked with the right mode but too few arguments,
`main` raises an uncaught `IndexError` instead of printing the usage string,
and with no arguments at all it raises before printing anything. -/
theorem main_wrong_argc_counterexample :
    (mainDispatch [str_local]).2 = MainStep.raiseIndexError ∧
    usageMsg ∉ (mainDispatch [str_local]).1 ∧
    mainDispatch [] = ([], MainStep.raiseIndexError) := by
  decide

/-- C7 (amended): an invocation whose first argument is neither `remote` nor
`local` prints the usage string to standard output and exits with status 1;
an invocation with too few arguments instead raises an uncaught
`IndexError` and never prints the usage string. -/
theorem main_invalid_mode_usage (kind : Str) (rest : List Str)
    (h1 : kind ≠ str_local) (h2 : kind ≠ str_remote) :
    mainDispatch (kind :: rest) = ([usageMsg], MainStep.exitUsage) ∧
    MainStep.exitUsage.exitCode = some 1 := by
  constructor
  · simp [mainDispatch, h1, h2]
  · rfl

/-- Witness for C7 at the argument list `[bogus]`. -/
theorem main_invalid_mode_usage_witness :
    mainDispatch ["bogus".toList] = ([usageMsg], MainStep.exitUsage) ∧
    MainStep.exitUsage.exitCode = some 1 :=
  main_invalid_mode_usage "bogus".toList [] (by decide) (by decide)

/-- C8: in local mode, when `Gopkg.lock` (or `Gopkg.toml`) is missing at the
fetcher's concatenated path, the run terminates with the `IOError` the spec
groups under `FetchError`, and no CSV file is produced: the file is only
opened after both fetches and the join have succeeded. -/
theorem local_missing_lock_no_csv (fs : FS) (projectName : Str) (f : LocalRepoFetcher)
    (h : fsLookup fs (f.location ++ "Gopkg.lock".toList) = none ∨
         fsLookup fs (f.location ++ "Gopkg.toml".toList) = none) :
    generateCsvFileLocal fs projectName f = Except.error PyErr.ioError ∧
    ∀ out, generateCsvFileLocal fs projectName f ≠ Except.ok out := by
  have haudit : auditLocal fs f = Except.error PyErr.ioError := by
    simp only [auditLocal, LocalRepoFetcher.fetchToml]
    cases htoml : fsLookup fs (f.location ++ "Gopkg.toml".toList) with
    | none => rfl
    | some pkg =>
      cases hlock : fsLookup fs (f.location ++ "Gopkg.lock".toList) with
      | none => rfl
      | some lock =>
        rcases h with h | h
        · rw [h] at hlock
          exact Option.noConfusion hlock
        · rw [h] at htoml
          exact Option.noConfusion htoml
  refine ⟨?_, ?_⟩
  · simp only [generateCsvFileLocal, haudit]
  · intro out hout
    simp only [generateCsvFileLocal, haudit] at hout
    exact Except.noConfusion hout

/-- Witness for C8: a base directory holding `Gopkg.toml` but no
`Gopkg.lock`. -/
theorem local_missing_lock_no_csv_witness :
    generateCsvFileLocal [("/repoGopkg.toml".toList, TomlDoc.mk [] [])] "proj".toList
        (LocalRepoFetcher.mk "/repo".toList) = Except.error PyErr.ioError ∧
    ∀ out, generateCsvFileLocal [("/repoGopkg.toml".toList, TomlDoc.mk [] [])] "proj".toList
        (LocalRepoFetcher.mk "/repo".toList) ≠ Except.ok out :=
  local_missing_lock_no_csv [("/repoGopkg.toml".toList, TomlDoc.mk [] [])] "proj".toList
    (LocalRepoFetcher.mk "/repo".toList) (Or.inl (by decide))

/-- C9: looking a name up in the dict built from the lock document's entries
yields the revision of the last entry in document order bearing that name
(last-write-wins), and the build is total, so duplicate names raise no
error. -/
theorem lock_last_write_wins (ps : List LockedProject) (n : Str) :
    dictGet? (buildLocked ps) n = specLastWriteWins ps n := by
  rw [buildLocked, specLastWriteWins, foldl_insert_get]
  cases (ps.reverse.find? (fun p => decide (p.name = n))).map LockedProject.revision with
  | none => rfl
  | some r => rfl

/-- C10: the local fetcher reads the plain string concatenation of its base
location and the filename, with no path separator inserted: the file the
snapshot holds at `location ++ filename` is returned, while a file stored at
`location ++ / ++ filename` (inside the base directory) is invisible and its
read raises `IOError`. -/
theorem local_fetch_concat_path (loc fn : Str) (doc : TomlDoc) (fs : FS)
    (h : fsLookup fs (loc ++ fn) = some doc) :
    (LocalRepoFetcher.mk loc).fetchToml fs fn = Except.ok doc ∧
    (LocalRepoFetcher.mk loc).fetchToml [(loc ++ ['/'] ++ fn, doc)] fn =
      Except.error PyErr.ioError := by
  constructor
  · simp only [LocalRepoFetcher.fetchToml, h]
  · have hne : fsLookup [(loc ++ ['/'] ++ fn, doc)] (loc ++ fn) = none := by
      simp only [fsLookup]
      rw [if_neg ?_]
      intro e
      have hlen := congrArg List.length e
      simp only [List.length_append, List.length_cons, List.length_nil] at hlen
      omega
    simp only [LocalRepoFetcher.fetchToml, hne]

/-- Witness for C10: base location `/repo` and filename `Gopkg.toml` read the
sibling path `/repoGopkg.toml`, not `/repo/Gopkg.toml`. -/
theorem local_fetch_concat_path_witness :
    (LocalRepoFetcher.mk "/repo".toList).fetchToml
        [("/repo".toList ++ "Gopkg.toml".toList, TomlDoc.mk [] [])] "Gopkg.toml".toList =
      Except.ok (TomlDoc.mk [] []) ∧
    (LocalRepoFetcher.mk "/repo".toList).fetchToml
        [("/repo".toList ++ ['/'] ++ "Gopkg.toml".toList, TomlDoc.mk [] [])]
        "Gopkg.toml".toList =
      Except.error PyErr.ioError :=
  local_fetch_concat_path "/repo".toList "Gopkg.toml".toList (TomlDoc.mk [] [])
    [("/repo".toList ++ "Gopkg.toml".toList, TomlDoc.mk [] [])] (by decide)

end DepAudit
